import Mathlib

/-!
Verification of the bibliothek-build-monitor ingestion pipeline
(src/bibliothek-cli.ts) against its specification.

The script watches an upload directory; when a metadata.json descriptor
appears it parses the descriptor, copies the declared download files into
permanent storage, upserts the Project / VersionGroup / Version hierarchy
in a document store, inserts a Build document, and then cleans up the
staging directory.

The embedding below models:
  * the filesystem as a list of regular files (path with content tag) plus
    a list of directories; paths are lists of already-resolved components;
  * the document store as four lists of documents plus a fresh-id counter;
    findOneAndUpdate with upsert plus setOnInsert and returnDocument after
    becomes a find-or-create returning the post-operation document;
  * one ingestion as a state transformer on a state that also accumulates
    an event trace, so ordering claims are claims about the trace;
  * the add-event handler for metadata.json as a function of the sequence
    of outcomes the filesystem would hand to successive read attempts, and
    of an abstract parse function standing for JSON.parse.
-/

namespace Bibliothek

/-- A filesystem path, already resolved into its components. -/
abbrev Path := List String

/-- The filesystem: regular files (path paired with a content tag) and
directories. -/
structure FS where
  files : List (Path × Nat)
  dirs : List Path
deriving DecidableEq

/-- A regular file exists at p. -/
def isFile (fs : FS) (p : Path) : Bool :=
  fs.files.any (fun e => e.1 == p)

/-- A directory exists at p. -/
def isDir (fs : FS) (p : Path) : Bool :=
  fs.dirs.any (fun d => d == p)

/-- fs.existsSync: something exists at p. -/
def existsPath (fs : FS) (p : Path) : Bool :=
  isFile fs p || isDir fs p

/-- Content of the file at p, defaulting to 0 when absent. -/
def readFile (fs : FS) (p : Path) : Nat :=
  ((fs.files.find? (fun e => e.1 == p)).map Prod.snd).getD 0

/-- Create or overwrite the regular file at p. The first matching entry
of the list is the content of the file, so prepending overwrites. -/
def writeFile (p : Path) (c : Nat) (fs : FS) : FS :=
  { fs with files := (p, c) :: fs.files }

/-- fs.mkdirSync with recursive true: create p and every ancestor. -/
def mkdirRec (p : Path) (fs : FS) : FS :=
  { fs with dirs := fs.dirs ++ p.inits.filter (fun q => !q.isEmpty) }

/-- p names a direct child of folder. -/
def isDirectChild (folder p : Path) : Bool :=
  (p.length == folder.length + 1) && folder.isPrefixOf p

/-- Lines 106-107: remove exactly the regular files directly inside folder
(the readdirSync entries that are files), keeping directories and the
folder itself. -/
def removeDirectFiles (folder : Path) (fs : FS) : FS :=
  { fs with files := fs.files.filter (fun e => !isDirectChild folder e.1) }

/-- fs.rmSync with recursive and force: remove folder and everything
below it. -/
def rmRec (folder : Path) (fs : FS) : FS :=
  { files := fs.files.filter (fun e => !folder.isPrefixOf e.1),
    dirs := fs.dirs.filter (fun d => !folder.isPrefixOf d) }

/-- One entry of the downloads map. -/
structure Download where
  name : String
  sha256 : String
deriving DecidableEq

/-- One entry of the changes list. -/
structure Change where
  commit : String
  summary : String
  message : String
deriving DecidableEq

/-- The parsed descriptor (interface Metadata, lines 8-26). The downloads
map is kept as the ordered key-value list the for-in loop iterates. -/
structure Metadata where
  project : String
  repo : String
  version : String
  number : Nat
  changes : List Change
  downloads : List (String × Download)
  supportedJavaVersions : List String
  supportedBedrockVersions : List String
deriving DecidableEq

/-- A document of the projects collection. -/
structure ProjectDoc where
  pid : Nat
  name : String
  friendlyName : String
deriving DecidableEq

/-- A document of the version_groups collection. -/
structure VersionGroupDoc where
  gid : Nat
  project : Nat
  name : String
deriving DecidableEq

/-- A document of the versions collection. -/
structure VersionDoc where
  vid : Nat
  project : Nat
  group : Nat
  name : String
  time : Nat
deriving DecidableEq

/-- A document of the builds collection. -/
structure BuildDoc where
  bid : Nat
  project : Nat
  version : Nat
  number : Nat
  time : Nat
  changes : List Change
  downloads : List (String × Download)
  promoted : Bool
  channel : String
  supportedJavaVersions : List String
  supportedBedrockVersions : List String
deriving DecidableEq

/-- The document store: the four collections plus a counter handing out
fresh document identifiers. -/
structure DB where
  projects : List ProjectDoc
  version_groups : List VersionGroupDoc
  versions : List VersionDoc
  builds : List BuildDoc
  nextId : Nat
deriving DecidableEq

/-- Line 33: the fixed channel tag. -/
def buildChannel : String := "DEFAULT"

/-- Lines 137-141: findOneAndUpdate on projects filtered by name, upsert
with setOnInsert of name and friendlyName, returning the post-operation
document. A found document is returned untouched. -/
def findOrCreateProject (name friendly : String) (db : DB) : ProjectDoc × DB :=
  match db.projects.find? (fun q => q.name == name) with
  | some p => (p, db)
  | none =>
    let p : ProjectDoc := { pid := db.nextId, name := name, friendlyName := friendly }
    (p, { db with projects := db.projects ++ [p], nextId := db.nextId + 1 })

/-- Lines 148-152: findOneAndUpdate on version_groups filtered by
project and name, upsert with setOnInsert of the same fields. -/
def findOrCreateVersionGroup (proj : Nat) (name : String) (db : DB) :
    VersionGroupDoc × DB :=
  match db.version_groups.find? (fun g => g.project == proj && g.name == name) with
  | some g => (g, db)
  | none =>
    let g : VersionGroupDoc := { gid := db.nextId, project := proj, name := name }
    (g, { db with version_groups := db.version_groups ++ [g], nextId := db.nextId + 1 })

/-- Lines 158-169: findOneAndUpdate on versions filtered by project and
name, upsert with setOnInsert adding the group reference and a creation
time. -/
def findOrCreateVersion (proj group : Nat) (name : String) (time : Nat) (db : DB) :
    VersionDoc × DB :=
  match db.versions.find? (fun v => v.project == proj && v.name == name) with
  | some v => (v, db)
  | none =>
    let v : VersionDoc :=
      { vid := db.nextId, project := proj, group := group, name := name, time := time }
    (v, { db with versions := db.versions ++ [v], nextId := db.nextId + 1 })

/-- Lines 175-186: insertOne into builds; always an insert, never an
upsert. -/
def insertBuildDoc (proj ver : Nat) (m : Metadata) (time : Nat) (db : DB) : DB :=
  { db with
    builds := db.builds ++ [{
      bid := db.nextId,
      project := proj,
      version := ver,
      number := m.number,
      time := time,
      changes := m.changes,
      downloads := m.downloads,
      promoted := false,
      channel := buildChannel,
      supportedJavaVersions := m.supportedJavaVersions,
      supportedBedrockVersions := m.supportedBedrockVersions }],
    nextId := db.nextId + 1 }

/-- The observable steps of one ingestion, in the order they happen. -/
inductive Event where
  | mkdir
  | copied (name : String)
  | copyError
  | connect
  | upsertProject
  | upsertVersionGroup
  | upsertVersion
  | insertBuild
  | dbError
  | cleanup
  | emptyError
  | readError
deriving DecidableEq

/-- The state one ingestion acts on: filesystem, document store, whether
the store connection will succeed, the current time, and the trace of
events so far. -/
structure St where
  fs : FS
  db : DB
  dbOk : Bool
  now : Nat
  events : List Event
deriving DecidableEq

/-- Append one event to the trace. -/
def emit (e : Event) (s : St) : St :=
  { s with events := s.events ++ [e] }

/-- The configuration read from the environment: the watched upload root
and the permanent storage root, as resolved paths. -/
structure Config where
  uploadFolder : Path
  storagePath : Path
deriving DecidableEq

/-- Line 147: the major.minor grouping key is computed by split on the
dot, slice of the first two components, join with a dot. This is the
split, on char lists. -/
def splitDots : List Char → List (List Char)
  | [] => [[]]
  | c :: cs =>
    match splitDots cs with
    | [] => [[]]
    | h :: t => if c = '.' then [] :: h :: t else (c :: h) :: t

/-- Line 147: version.split of dot, slice 0 2, join with dot. -/
def majorVersion (v : String) : String :=
  (List.intercalate ['.'] ((splitDots v.toList).take 2)).asString

/-- Line 114: the destination directory for the downloads of this
descriptor. -/
def dlPath (cfg : Config) (m : Metadata) : Path :=
  cfg.storagePath ++ [m.project, m.version, toString m.number]

/-- Lines 116-120: create the destination directory, with parents, when
nothing exists at that path yet. -/
def mkPhase (cfg : Config) (m : Metadata) (s : St) : St :=
  if existsPath s.fs (dlPath cfg m) then s
  else emit .mkdir { s with fs := mkdirRec (dlPath cfg m) s.fs }

/-- Lines 123-127: one successful copyFileSync from the staging folder
into the destination directory. -/
def copyStep (folder dest : Path) (s : St) (kv : String × Download) : St :=
  let c := readFile s.fs (folder ++ [kv.2.name])
  emit (.copied kv.2.name) { s with fs := writeFile (dest ++ [kv.2.name]) c s.fs }

/-- Lines 122-132: the copy loop over the downloads map. A missing source
file makes copyFileSync throw; the catch logs the error and the function
returns, leaving earlier copies in place. The Bool says whether every
copy succeeded. -/
def copyLoop (folder dest : Path) : List (String × Download) → St → Bool × St
  | [], s => (true, s)
  | kv :: rest, s =>
    if isFile s.fs (folder ++ [kv.2.name]) then
      copyLoop folder dest rest (copyStep folder dest s kv)
    else
      (false, emit .copyError s)

/-- Lines 134-198: connect to the store, resolve the hierarchy, insert
the build. When the connection fails the catch logs the error and the
function returns with no store write. In the model every
findOneAndUpdate with upsert returns a document, so the three
document-missing throw branches of the source are unreachable. -/
def dbPhase (m : Metadata) (s : St) : St :=
  if s.dbOk then
    let s0 := emit .connect s
    let pr := findOrCreateProject m.project m.repo s0.db
    let s1 := emit .upsertProject { s0 with db := pr.2 }
    let gr := findOrCreateVersionGroup pr.1.pid (majorVersion m.version) s1.db
    let s2 := emit .upsertVersionGroup { s1 with db := gr.2 }
    let vr := findOrCreateVersion pr.1.pid gr.1.gid m.version s2.now s2.db
    let s3 := emit .upsertVersion { s2 with db := vr.2 }
    emit .insertBuild { s3 with db := insertBuildDoc pr.1.pid vr.1.vid m s3.now s3.db }
  else
    emit .dbError s

/-- Lines 113-199: the insert function. Directory creation, then the copy
loop, then, only when every copy succeeded, the store phase. All failures
inside are caught and logged; insert never throws. -/
def insert (cfg : Config) (m : Metadata) (folder : Path) (s : St) : St :=
  let r := copyLoop folder (dlPath cfg m) m.downloads (mkPhase cfg m s)
  if r.1 then dbPhase m r.2 else r.2

/-- Lines 102-110: the staging cleaner. The check of line 104, relative
of uploadFolder and folder being empty, holds exactly when the two
resolved paths coincide, which in the model of resolved paths is
equality. -/
def clean (cfg : Config) (folder : Path) (s : St) : St :=
  let s1 := emit .cleanup s
  if folder = cfg.uploadFolder then
    { s1 with fs := removeDirectFiles folder s1.fs }
  else
    { s1 with fs := rmRec folder s1.fs }

/-- Lines 90-111: handleMetadata runs insert and then, unconditionally,
the cleaner. -/
def handleMetadata (cfg : Config) (m : Metadata) (folder : Path) (s : St) : St :=
  clean cfg folder (insert cfg m folder s)

/-- What one readFileSync attempt on the descriptor yields: a thrown
error, or the file contents. -/
inductive FileRead where
  | readErr
  | ok (contents : String)
deriving DecidableEq

/-- How one iteration of the read loop of lines 69-86 ends. -/
inductive ReadOutcome where
  | parsed (m : Metadata)
  | emptyOut
  | errorOut
deriving DecidableEq

/-- Lines 72-85: one iteration body. A thrown read is caught, logged and
breaks; empty contents log and break; a parse throw is caught, logged
and breaks; otherwise the descriptor is parsed. The parse argument
stands for JSON.parse. -/
def attemptResult (parse : String → Option Metadata) (r : FileRead) : ReadOutcome :=
  match r with
  | .readErr => .errorOut
  | .ok c =>
    if c = "" then .emptyOut
    else
      match parse c with
      | none => .errorOut
      | some m => .parsed m

/-- Lines 67-87: the metadata.json branch of the add handler. reads lists
the outcome each successive read attempt would see; because every branch
of the loop body breaks or returns, only the head is ever consumed. -/
def onMetadataAdd (cfg : Config) (parse : String → Option Metadata)
    (reads : List FileRead) (folder : Path) (s : St) : St :=
  match reads with
  | [] => s
  | r :: _ =>
    match attemptResult parse r with
    | .errorOut => emit .readError s
    | .emptyOut => emit .emptyError s
    | .parsed m => handleMetadata cfg m folder s

/-- The evolution the store phase applies to the store when the
connection succeeds: resolve project, then version group, then version,
then insert the build. Proved below to be what dbPhase does to the db
field. -/
def dbStep (m : Metadata) (time : Nat) (db : DB) : DB :=
  let pr := findOrCreateProject m.project m.repo db
  let gr := findOrCreateVersionGroup pr.1.pid (majorVersion m.version) pr.2
  let vr := findOrCreateVersion pr.1.pid gr.1.gid m.version time gr.2
  insertBuildDoc pr.1.pid vr.1.vid m time vr.2

/-! ### Concrete inputs used by witnesses and counterexamples -/

/-- A configuration: watch root up, storage root st. -/
def exCfg : Config := { uploadFolder := ["up"], storagePath := ["st"] }

/-- A descriptor with one download. -/
def exMeta : Metadata :=
  { project := "paper", repo := "Paper", version := "1.19.4", number := 50,
    changes := [], downloads := [("application", { name := "paper-50.jar", sha256 := "abc" })],
    supportedJavaVersions := ["21"], supportedBedrockVersions := [] }

/-- The empty document store. -/
def emptyDB : DB :=
  { projects := [], version_groups := [], versions := [], builds := [], nextId := 1 }

/-- A state in which the download named by exMeta is missing from the
staging directory up/sub. -/
def exStMissing : St :=
  { fs := { files := [], dirs := [["up"], ["up", "sub"]] },
    db := emptyDB, dbOk := true, now := 7, events := [] }

/-- A state in which the download named by exMeta is present in the
staging directory up/sub. -/
def exStPresent : St :=
  { fs := { files := [(["up", "sub", "paper-50.jar"], 42)], dirs := [["up"], ["up", "sub"]] },
    db := emptyDB, dbOk := true, now := 7, events := [] }

/-- A descriptor with three downloads, used to observe where the copy
loop stops. -/
def exMetaThree : Metadata :=
  { project := "paper", repo := "Paper", version := "1.19.4", number := 51,
    changes := [], downloads :=
      [("a", { name := "a.jar", sha256 := "s1" }),
       ("b", { name := "b.jar", sha256 := "s2" }),
       ("c", { name := "c.jar", sha256 := "s3" })],
    supportedJavaVersions := [], supportedBedrockVersions := [] }

/-- A state in which only the first of the three downloads of
exMetaThree is present in up/sub. -/
def exStFirstOnly : St :=
  { fs := { files := [(["up", "sub", "a.jar"], 1)], dirs := [["up"], ["up", "sub"]] },
    db := emptyDB, dbOk := true, now := 7, events := [] }

/-- A descriptor with no downloads at all. -/
def exMetaNone : Metadata :=
  { project := "paper", repo := "Paper", version := "1.19.4", number := 52,
    changes := [], downloads := [],
    supportedJavaVersions := [], supportedBedrockVersions := [] }

/-- A state with some files inside the watch root and a subdirectory,
used on the cleaner. -/
def exStMixed : St :=
  { fs := { files := [(["up", "x.jar"], 1), (["up", "sub", "y.jar"], 2)],
            dirs := [["up"], ["up", "sub"]] },
    db := emptyDB, dbOk := true, now := 7, events := [] }

/-! ### Path and filesystem lemmas -/

theorem append_singleton_ne {p q : Path} {a b : String} (h : p ≠ q) :
    p ++ [a] ≠ q ++ [b] :=
  fun hc => h (List.append_inj' hc rfl).1

theorem isFile_writeFile_self (p : Path) (c : Nat) (fs : FS) :
    isFile (writeFile p c fs) p = true := by
  simp [isFile, writeFile]

theorem isFile_writeFile_ne {p q : Path} (c : Nat) (fs : FS) (h : p ≠ q) :
    isFile (writeFile q c fs) p = isFile fs p := by
  simp [isFile, writeFile, List.any_cons, beq_iff_eq, Ne.symm h]

theorem isFile_writeFile_mono {p : Path} {fs : FS} (q : Path) (c : Nat)
    (h : isFile fs p = true) : isFile (writeFile q c fs) p = true := by
  by_cases hpq : p = q
  · subst hpq; exact isFile_writeFile_self p c fs
  · rw [isFile_writeFile_ne c fs hpq]; exact h

theorem writeFile_dirs (p : Path) (c : Nat) (fs : FS) :
    (writeFile p c fs).dirs = fs.dirs := rfl

theorem isDir_of_dirs_eq {fs1 fs2 : FS} (h : fs1.dirs = fs2.dirs) (p : Path) :
    isDir fs1 p = isDir fs2 p := by
  simp [isDir, h]

theorem isDir_mkdirRec_of_prefix {q p : Path} (fs : FS) (hne : q ≠ [])
    (hpre : q <+: p) : isDir (mkdirRec p fs) q = true := by
  simp only [isDir, mkdirRec, List.any_append, List.any_eq_true, Bool.or_eq_true]
  right
  exact ⟨q, by
    simp [List.mem_filter, List.mem_inits, hpre, List.isEmpty_iff, hne]⟩

theorem emit_db (e : Event) (s : St) : (emit e s).db = s.db := rfl

theorem emit_fs (e : Event) (s : St) : (emit e s).fs = s.fs := rfl

theorem emit_events (e : Event) (s : St) : (emit e s).events = s.events ++ [e] := rfl

/-! ### Lemmas on the copy phase -/

theorem copyStep_db (f d : Path) (s : St) (kv : String × Download) :
    (copyStep f d s kv).db = s.db := rfl

theorem copyStep_dbOk (f d : Path) (s : St) (kv : String × Download) :
    (copyStep f d s kv).dbOk = s.dbOk := rfl

theorem copyStep_now (f d : Path) (s : St) (kv : String × Download) :
    (copyStep f d s kv).now = s.now := rfl

theorem copyStep_dirs (f d : Path) (s : St) (kv : String × Download) :
    (copyStep f d s kv).fs.dirs = s.fs.dirs := rfl

theorem copyStep_events (f d : Path) (s : St) (kv : String × Download) :
    (copyStep f d s kv).events = s.events ++ [Event.copied kv.2.name] := rfl

theorem isFile_copyStep_mono {p : Path} {s : St} (f d : Path) (kv : String × Download)
    (h : isFile s.fs p = true) : isFile (copyStep f d s kv).fs p = true :=
  isFile_writeFile_mono _ _ h

theorem isFile_copyStep_ne {p : Path} (f d : Path) (s : St) (kv : String × Download)
    (h : p ≠ d ++ [kv.2.name]) : isFile (copyStep f d s kv).fs p = isFile s.fs p :=
  isFile_writeFile_ne _ _ h

theorem isFile_copyStep_self (f d : Path) (s : St) (kv : String × Download) :
    isFile (copyStep f d s kv).fs (d ++ [kv.2.name]) = true :=
  isFile_writeFile_self _ _ _

theorem foldl_copy_db (f d : Path) :
    ∀ (l : List (String × Download)) (s : St),
      (List.foldl (copyStep f d) s l).db = s.db := by
  intro l
  induction l with
  | nil => intro s; rfl
  | cons kv rest ih => intro s; simpa [List.foldl_cons] using ih (copyStep f d s kv)

theorem foldl_copy_dbOk (f d : Path) :
    ∀ (l : List (String × Download)) (s : St),
      (List.foldl (copyStep f d) s l).dbOk = s.dbOk := by
  intro l
  induction l with
  | nil => intro s; rfl
  | cons kv rest ih => intro s; simpa [List.foldl_cons] using ih (copyStep f d s kv)

theorem foldl_copy_now (f d : Path) :
    ∀ (l : List (String × Download)) (s : St),
      (List.foldl (copyStep f d) s l).now = s.now := by
  intro l
  induction l with
  | nil => intro s; rfl
  | cons kv rest ih => intro s; simpa [List.foldl_cons] using ih (copyStep f d s kv)

theorem foldl_copy_dirs (f d : Path) :
    ∀ (l : List (String × Download)) (s : St),
      (List.foldl (copyStep f d) s l).fs.dirs = s.fs.dirs := by
  intro l
  induction l with
  | nil => intro s; rfl
  | cons kv rest ih => intro s; simpa [List.foldl_cons] using ih (copyStep f d s kv)

theorem foldl_copy_events (f d : Path) :
    ∀ (l : List (String × Download)) (s : St),
      (List.foldl (copyStep f d) s l).events =
        s.events ++ l.map (fun x => Event.copied x.2.name) := by
  intro l
  induction l with
  | nil => intro s; simp
  | cons kv rest ih =>
    intro s
    rw [List.foldl_cons, ih (copyStep f d s kv), copyStep_events]
    simp

theorem foldl_copy_isFile_mono (f d : Path) {p : Path} :
    ∀ (l : List (String × Download)) (s : St), isFile s.fs p = true →
      isFile (List.foldl (copyStep f d) s l).fs p = true := by
  intro l
  induction l with
  | nil => intro s h; exact h
  | cons kv rest ih =>
    intro s h
    rw [List.foldl_cons]
    exact ih (copyStep f d s kv) (isFile_copyStep_mono f d kv h)

theorem foldl_copy_dest (f d : Path) :
    ∀ (l : List (String × Download)) (s : St) (x : String × Download), x ∈ l →
      isFile (List.foldl (copyStep f d) s l).fs (d ++ [x.2.name]) = true := by
  intro l
  induction l with
  | nil => intro s x hx; cases hx
  | cons kv rest ih =>
    intro s x hx
    rw [List.foldl_cons]
    rcases List.mem_cons.mp hx with rfl | h
    · exact foldl_copy_isFile_mono f d rest _ (isFile_copyStep_self f d s _)
    · exact ih _ x h

theorem copyLoop_ok (f d : Path) :
    ∀ (ds : List (String × Download)) (s : St),
      (∀ kv ∈ ds, isFile s.fs (f ++ [kv.2.name]) = true) →
      copyLoop f d ds s = (true, List.foldl (copyStep f d) s ds) := by
  intro ds
  induction ds with
  | nil => intro s _; rfl
  | cons kv rest ih =>
    intro s h
    have hkv : isFile s.fs (f ++ [kv.2.name]) = true := h kv (List.mem_cons_self kv rest)
    rw [copyLoop, if_pos hkv, List.foldl_cons]
    exact ih (copyStep f d s kv) fun x hx =>
      isFile_copyStep_mono f d kv (h x (List.mem_cons_of_mem kv hx))

theorem copyLoop_fail_shape (f d : Path) :
    ∀ (ds : List (String × Download)) (s : St),
      (copyLoop f d ds s).1 = false →
      (copyLoop f d ds s).2.db = s.db ∧
      (copyLoop f d ds s).2.dbOk = s.dbOk ∧
      (copyLoop f d ds s).2.fs.dirs = s.fs.dirs ∧
      ∃ E, (copyLoop f d ds s).2.events = s.events ++ E ∧
        ∀ e ∈ E, (∃ n, e = Event.copied n) ∨ e = Event.copyError := by
  intro ds
  induction ds with
  | nil => intro s h; cases h
  | cons kv rest ih =>
    intro s h
    by_cases hkv : isFile s.fs (f ++ [kv.2.name]) = true
    · rw [copyLoop, if_pos hkv] at h ⊢
      obtain ⟨h1, h2, h3, E, hE, hEmem⟩ := ih (copyStep f d s kv) h
      refine ⟨h1.trans (copyStep_db f d s kv), h2.trans (copyStep_dbOk f d s kv),
        h3.trans (copyStep_dirs f d s kv), Event.copied kv.2.name :: E, ?_, ?_⟩
      · rw [hE, copyStep_events]; simp
      · intro e he
        rcases List.mem_cons.mp he with rfl | he
        · exact Or.inl ⟨kv.2.name, rfl⟩
        · exact hEmem e he
    · rw [copyLoop, if_neg hkv]
      exact ⟨rfl, rfl, rfl, [Event.copyError], rfl, by
        intro e he
        rcases List.mem_cons.mp he with rfl | he
        · exact Or.inr rfl
        · cases he⟩

theorem copyLoop_dbOk (f d : Path) :
    ∀ (ds : List (String × Download)) (s : St),
      (copyLoop f d ds s).2.dbOk = s.dbOk := by
  intro ds
  induction ds with
  | nil => intro s; rfl
  | cons kv rest ih =>
    intro s
    rw [copyLoop]
    by_cases hkv : isFile s.fs (f ++ [kv.2.name]) = true
    · rw [if_pos hkv]; exact (ih _).trans (copyStep_dbOk f d s kv)
    · rw [if_neg hkv]; rfl

theorem copyLoop_dirs (f d : Path) :
    ∀ (ds : List (String × Download)) (s : St),
      (copyLoop f d ds s).2.fs.dirs = s.fs.dirs := by
  intro ds
  induction ds with
  | nil => intro s; rfl
  | cons kv rest ih =>
    intro s
    rw [copyLoop]
    by_cases hkv : isFile s.fs (f ++ [kv.2.name]) = true
    · rw [if_pos hkv]; exact (ih _).trans (copyStep_dirs f d s kv)
    · rw [if_neg hkv]; rfl

theorem copyLoop_isFile_mono (f d : Path) {p : Path} :
    ∀ (ds : List (String × Download)) (s : St), isFile s.fs p = true →
      isFile (copyLoop f d ds s).2.fs p = true := by
  intro ds
  induction ds with
  | nil => intro s h; exact h
  | cons kv rest ih =>
    intro s h
    rw [copyLoop]
    by_cases hkv : isFile s.fs (f ++ [kv.2.name]) = true
    · rw [if_pos hkv]; exact ih _ (isFile_copyStep_mono f d kv h)
    · rw [if_neg hkv]; exact h

theorem copyLoop_events_ext (f d : Path) :
    ∀ (ds : List (String × Download)) (s : St),
      ∃ E, (copyLoop f d ds s).2.events = s.events ++ E := by
  intro ds
  induction ds with
  | nil => intro s; exact ⟨[], by simp [copyLoop]⟩
  | cons kv rest ih =>
    intro s
    rw [copyLoop]
    by_cases hkv : isFile s.fs (f ++ [kv.2.name]) = true
    · rw [if_pos hkv]
      obtain ⟨E, hE⟩ := ih (copyStep f d s kv)
      exact ⟨Event.copied kv.2.name :: E, by rw [hE, copyStep_events]; simp⟩
    · rw [if_neg hkv]
      exact ⟨[Event.copyError], rfl⟩

theorem copyLoop_pre_fail (f d : Path) (hfd : f ≠ d)
    (kv : String × Download) (post : List (String × Download)) :
    ∀ (pre : List (String × Download)) (s : St),
      (∀ x ∈ pre, isFile s.fs (f ++ [x.2.name]) = true) →
      isFile s.fs (f ++ [kv.2.name]) = false →
      copyLoop f d (pre ++ kv :: post) s =
        (false, emit .copyError (List.foldl (copyStep f d) s pre)) := by
  intro pre
  induction pre with
  | nil =>
    intro s _ hkv
    rw [List.nil_append, copyLoop, if_neg (by rw [hkv]; exact Bool.false_ne_true)]
    rfl
  | cons x rest ih =>
    intro s h hkv
    have hx : isFile s.fs (f ++ [x.2.name]) = true := h x (List.mem_cons_self x rest)
    rw [List.cons_append, copyLoop, if_pos hx, List.foldl_cons]
    exact ih (copyStep f d s x)
      (fun y hy => isFile_copyStep_mono f d x (h y (List.mem_cons_of_mem x hy)))
      (by rw [isFile_copyStep_ne f d s x (append_singleton_ne hfd)]; exact hkv)

/-! ### Lemmas on directory creation, the store phase, insert and clean -/

theorem mkPhase_db (cfg : Config) (m : Metadata) (s : St) :
    (mkPhase cfg m s).db = s.db := by
  unfold mkPhase; split <;> rfl

theorem mkPhase_dbOk (cfg : Config) (m : Metadata) (s : St) :
    (mkPhase cfg m s).dbOk = s.dbOk := by
  unfold mkPhase; split <;> rfl

theorem mkPhase_now (cfg : Config) (m : Metadata) (s : St) :
    (mkPhase cfg m s).now = s.now := by
  unfold mkPhase; split <;> rfl

theorem mkPhase_files (cfg : Config) (m : Metadata) (s : St) :
    (mkPhase cfg m s).fs.files = s.fs.files := by
  unfold mkPhase; split <;> rfl

theorem mkPhase_isFile (cfg : Config) (m : Metadata) (s : St) (p : Path) :
    isFile (mkPhase cfg m s).fs p = isFile s.fs p := by
  simp [isFile, mkPhase_files]

theorem mkPhase_events (cfg : Config) (m : Metadata) (s : St) :
    (mkPhase cfg m s).events =
      s.events ++ (if existsPath s.fs (dlPath cfg m) then [] else [Event.mkdir]) := by
  unfold mkPhase; split <;> simp [emit]

theorem dbPhase_fs (m : Metadata) (s : St) : (dbPhase m s).fs = s.fs := by
  unfold dbPhase; split <;> rfl

theorem dbPhase_dbOk (m : Metadata) (s : St) : (dbPhase m s).dbOk = s.dbOk := by
  unfold dbPhase; split <;> rfl

theorem dbPhase_now (m : Metadata) (s : St) : (dbPhase m s).now = s.now := by
  unfold dbPhase; split <;> rfl

theorem dbPhase_events_ok (m : Metadata) (s : St) (h : s.dbOk = true) :
    (dbPhase m s).events = s.events ++
      [Event.connect, Event.upsertProject, Event.upsertVersionGroup,
       Event.upsertVersion, Event.insertBuild] := by
  simp [dbPhase, h, emit]

theorem dbPhase_events_ext (m : Metadata) (s : St) :
    ∃ E, (dbPhase m s).events = s.events ++ E := by
  by_cases h : s.dbOk = true
  · exact ⟨_, dbPhase_events_ok m s h⟩
  · refine ⟨[Event.dbError], ?_⟩
    unfold dbPhase
    rw [if_neg (by rw [Bool.of_not_eq_true h]; exact Bool.false_ne_true)]
    rfl

theorem dbPhase_db_ok (m : Metadata) (s : St) (h : s.dbOk = true) :
    (dbPhase m s).db = dbStep m s.now s.db := by
  simp [dbPhase, h, emit, dbStep]

theorem insert_eq_if (cfg : Config) (m : Metadata) (folder : Path) (s : St) :
    insert cfg m folder s =
      if (copyLoop folder (dlPath cfg m) m.downloads (mkPhase cfg m s)).1 then
        dbPhase m (copyLoop folder (dlPath cfg m) m.downloads (mkPhase cfg m s)).2
      else (copyLoop folder (dlPath cfg m) m.downloads (mkPhase cfg m s)).2 := rfl

theorem insert_of_copyFail (cfg : Config) (m : Metadata) (folder : Path) (s : St)
    (h : (copyLoop folder (dlPath cfg m) m.downloads (mkPhase cfg m s)).1 = false) :
    insert cfg m folder s =
      (copyLoop folder (dlPath cfg m) m.downloads (mkPhase cfg m s)).2 := by
  rw [insert_eq_if, h]
  simp

theorem insert_eq_dbPhase_foldl (cfg : Config) (m : Metadata) (folder : Path) (s : St)
    (h : ∀ kv ∈ m.downloads, isFile s.fs (folder ++ [kv.2.name]) = true) :
    insert cfg m folder s =
      dbPhase m (List.foldl (copyStep folder (dlPath cfg m)) (mkPhase cfg m s)
        m.downloads) := by
  rw [insert_eq_if, copyLoop_ok folder (dlPath cfg m) m.downloads (mkPhase cfg m s)
    (fun kv hkv => by rw [mkPhase_isFile]; exact h kv hkv)]
  simp

theorem insert_dirs (cfg : Config) (m : Metadata) (folder : Path) (s : St) :
    (insert cfg m folder s).fs.dirs = (mkPhase cfg m s).fs.dirs := by
  rw [insert_eq_if]
  by_cases h : (copyLoop folder (dlPath cfg m) m.downloads (mkPhase cfg m s)).1 = true
  · rw [h]
    simp only [if_true]
    rw [dbPhase_fs]
    exact copyLoop_dirs _ _ _ _
  · rw [Bool.of_not_eq_true h]
    simp only [Bool.false_eq_true, if_false]
    exact copyLoop_dirs _ _ _ _

theorem insert_dbOk (cfg : Config) (m : Metadata) (folder : Path) (s : St) :
    (insert cfg m folder s).dbOk = s.dbOk := by
  rw [insert_eq_if]
  by_cases h : (copyLoop folder (dlPath cfg m) m.downloads (mkPhase cfg m s)).1 = true
  · rw [h]
    simp only [if_true]
    rw [dbPhase_dbOk]
    exact (copyLoop_dbOk _ _ _ _).trans (mkPhase_dbOk cfg m s)
  · rw [Bool.of_not_eq_true h]
    simp only [Bool.false_eq_true, if_false]
    exact (copyLoop_dbOk _ _ _ _).trans (mkPhase_dbOk cfg m s)

theorem insert_isFile_mono (cfg : Config) (m : Metadata) (folder : Path) (s : St)
    {p : Path} (h : isFile s.fs p = true) :
    isFile (insert cfg m folder s).fs p = true := by
  rw [insert_eq_if]
  have hm : isFile (mkPhase cfg m s).fs p = true := by rw [mkPhase_isFile]; exact h
  by_cases hc : (copyLoop folder (dlPath cfg m) m.downloads (mkPhase cfg m s)).1 = true
  · rw [hc]
    simp only [if_true]
    rw [dbPhase_fs]
    exact copyLoop_isFile_mono _ _ _ _ hm
  · rw [Bool.of_not_eq_true hc]
    simp only [Bool.false_eq_true, if_false]
    exact copyLoop_isFile_mono _ _ _ _ hm

theorem insert_events_from_mkPhase (cfg : Config) (m : Metadata) (folder : Path)
    (s : St) : ∃ E, (insert cfg m folder s).events = (mkPhase cfg m s).events ++ E := by
  rw [insert_eq_if]
  by_cases h : (copyLoop folder (dlPath cfg m) m.downloads (mkPhase cfg m s)).1 = true
  · rw [h]
    simp only [if_true]
    obtain ⟨E1, hE1⟩ :=
      copyLoop_events_ext folder (dlPath cfg m) m.downloads (mkPhase cfg m s)
    obtain ⟨E2, hE2⟩ :=
      dbPhase_events_ext m (copyLoop folder (dlPath cfg m) m.downloads (mkPhase cfg m s)).2
    exact ⟨E1 ++ E2, by rw [hE2, hE1, List.append_assoc]⟩
  · rw [Bool.of_not_eq_true h]
    simp only [Bool.false_eq_true, if_false]
    exact copyLoop_events_ext folder (dlPath cfg m) m.downloads (mkPhase cfg m s)

theorem clean_events (cfg : Config) (folder : Path) (s : St) :
    (clean cfg folder s).events = s.events ++ [Event.cleanup] := by
  unfold clean; split <;> rfl

theorem clean_db (cfg : Config) (folder : Path) (s : St) :
    (clean cfg folder s).db = s.db := by
  unfold clean; split <;> rfl

/-! ### Lemmas on the find-or-create store operations -/

theorem find?_append_one {α : Type} (l : List α) (p : α → Bool) (a : α)
    (h : l.find? p = none) (ha : p a = true) : (l ++ [a]).find? p = some a := by
  rw [List.find?_append, h]
  simp [ha]

theorem findOrCreateProject_found (n f : String) (db : DB) :
    (findOrCreateProject n f db).2.projects.find? (fun q => q.name == n) =
      some (findOrCreateProject n f db).1 := by
  unfold findOrCreateProject
  cases h : db.projects.find? (fun q => q.name == n) with
  | some p => simpa using h
  | none => exact find?_append_one _ _ _ h (by simp)

theorem findOrCreateProject_of_found {n f : String} {db : DB} {p : ProjectDoc}
    (h : db.projects.find? (fun q => q.name == n) = some p) :
    findOrCreateProject n f db = (p, db) := by
  unfold findOrCreateProject
  rw [h]

theorem findOrCreateVersionGroup_found (pid : Nat) (n : String) (db : DB) :
    (findOrCreateVersionGroup pid n db).2.version_groups.find?
        (fun g => g.project == pid && g.name == n) =
      some (findOrCreateVersionGroup pid n db).1 := by
  unfold findOrCreateVersionGroup
  cases h : db.version_groups.find? (fun g => g.project == pid && g.name == n) with
  | some g => simpa using h
  | none => exact find?_append_one _ _ _ h (by simp)

theorem findOrCreateVersionGroup_of_found {pid : Nat} {n : String} {db : DB}
    {g : VersionGroupDoc}
    (h : db.version_groups.find? (fun x => x.project == pid && x.name == n) = some g) :
    findOrCreateVersionGroup pid n db = (g, db) := by
  unfold findOrCreateVersionGroup
  rw [h]

theorem findOrCreateVersion_found (pid gid : Nat) (n : String) (t : Nat) (db : DB) :
    (findOrCreateVersion pid gid n t db).2.versions.find?
        (fun v => v.project == pid && v.name == n) =
      some (findOrCreateVersion pid gid n t db).1 := by
  unfold findOrCreateVersion
  cases h : db.versions.find? (fun v => v.project == pid && v.name == n) with
  | some v => simpa using h
  | none => exact find?_append_one _ _ _ h (by simp)

theorem findOrCreateVersion_of_found {pid gid : Nat} {n : String} {t : Nat} {db : DB}
    {v : VersionDoc}
    (h : db.versions.find? (fun x => x.project == pid && x.name == n) = some v) :
    findOrCreateVersion pid gid n t db = (v, db) := by
  unfold findOrCreateVersion
  rw [h]

theorem findOrCreateProject_frame (n f : String) (db : DB) :
    (findOrCreateProject n f db).2.version_groups = db.version_groups ∧
    (findOrCreateProject n f db).2.versions = db.versions ∧
    (findOrCreateProject n f db).2.builds = db.builds := by
  unfold findOrCreateProject
  cases db.projects.find? (fun q => q.name == n) <;> exact ⟨rfl, rfl, rfl⟩

theorem findOrCreateVersionGroup_frame (pid : Nat) (n : String) (db : DB) :
    (findOrCreateVersionGroup pid n db).2.projects = db.projects ∧
    (findOrCreateVersionGroup pid n db).2.versions = db.versions ∧
    (findOrCreateVersionGroup pid n db).2.builds = db.builds := by
  unfold findOrCreateVersionGroup
  cases db.version_groups.find? (fun g => g.project == pid && g.name == n) <;>
    exact ⟨rfl, rfl, rfl⟩

theorem findOrCreateVersion_frame (pid gid : Nat) (n : String) (t : Nat) (db : DB) :
    (findOrCreateVersion pid gid n t db).2.projects = db.projects ∧
    (findOrCreateVersion pid gid n t db).2.version_groups = db.version_groups ∧
    (findOrCreateVersion pid gid n t db).2.builds = db.builds := by
  unfold findOrCreateVersion
  cases db.versions.find? (fun v => v.project == pid && v.name == n) <;>
    exact ⟨rfl, rfl, rfl⟩

theorem insertBuildDoc_frame (pid vid : Nat) (m : Metadata) (t : Nat) (db : DB) :
    (insertBuildDoc pid vid m t db).projects = db.projects ∧
    (insertBuildDoc pid vid m t db).version_groups = db.version_groups ∧
    (insertBuildDoc pid vid m t db).versions = db.versions := by
  exact ⟨rfl, rfl, rfl⟩

theorem insertBuildDoc_builds_len (pid vid : Nat) (m : Metadata) (t : Nat) (db : DB) :
    (insertBuildDoc pid vid m t db).builds.length = db.builds.length + 1 := by
  simp [insertBuildDoc]

theorem dbStep_of_resolved (m : Metadata) (t2 : Nat) (db1 : DB) (p : ProjectDoc)
    (g : VersionGroupDoc) (v : VersionDoc)
    (hp : db1.projects.find? (fun q => q.name == m.project) = some p)
    (hg : db1.version_groups.find?
      (fun x => x.project == p.pid && x.name == majorVersion m.version) = some g)
    (hv : db1.versions.find? (fun x => x.project == p.pid && x.name == m.version) =
      some v) :
    dbStep m t2 db1 = insertBuildDoc p.pid v.vid m t2 db1 := by
  simp only [dbStep, findOrCreateProject_of_found hp,
    findOrCreateVersionGroup_of_found hg, findOrCreateVersion_of_found hv]

theorem dbStep_finds (m : Metadata) (t : Nat) (db : DB) :
    (dbStep m t db).projects.find? (fun q => q.name == m.project) =
      some (findOrCreateProject m.project m.repo db).1 ∧
    (dbStep m t db).version_groups.find?
        (fun x => x.project == (findOrCreateProject m.project m.repo db).1.pid &&
          x.name == majorVersion m.version) =
      some (findOrCreateVersionGroup (findOrCreateProject m.project m.repo db).1.pid
        (majorVersion m.version) (findOrCreateProject m.project m.repo db).2).1 ∧
    (dbStep m t db).versions.find?
        (fun x => x.project == (findOrCreateProject m.project m.repo db).1.pid &&
          x.name == m.version) =
      some (findOrCreateVersion (findOrCreateProject m.project m.repo db).1.pid
        (findOrCreateVersionGroup (findOrCreateProject m.project m.repo db).1.pid
          (majorVersion m.version) (findOrCreateProject m.project m.repo db).2).1.gid
        m.version t
        (findOrCreateVersionGroup (findOrCreateProject m.project m.repo db).1.pid
          (majorVersion m.version) (findOrCreateProject m.project m.repo db).2).2).1 := by
  refine ⟨?_, ?_, ?_⟩
  · simp only [dbStep]
    rw [(insertBuildDoc_frame _ _ _ _ _).1, (findOrCreateVersion_frame _ _ _ _ _).1,
      (findOrCreateVersionGroup_frame _ _ _).1]
    exact findOrCreateProject_found _ _ _
  · simp only [dbStep]
    rw [(insertBuildDoc_frame _ _ _ _ _).2.1, (findOrCreateVersion_frame _ _ _ _ _).2.1]
    exact findOrCreateVersionGroup_found _ _ _
  · simp only [dbStep]
    rw [(insertBuildDoc_frame _ _ _ _ _).2.2]
    exact findOrCreateVersion_found _ _ _ _ _

theorem dbStep_stable (m : Metadata) (t t2 : Nat) (db : DB) :
    (dbStep m t2 (dbStep m t db)).projects = (dbStep m t db).projects ∧
    (dbStep m t2 (dbStep m t db)).version_groups = (dbStep m t db).version_groups ∧
    (dbStep m t2 (dbStep m t db)).versions = (dbStep m t db).versions ∧
    (dbStep m t2 (dbStep m t db)).builds.length = (dbStep m t db).builds.length + 1 := by
  obtain ⟨hp, hg, hv⟩ := dbStep_finds m t db
  rw [dbStep_of_resolved m t2 (dbStep m t db) _ _ _ hp hg hv]
  exact ⟨(insertBuildDoc_frame _ _ _ _ _).1, (insertBuildDoc_frame _ _ _ _ _).2.1,
    (insertBuildDoc_frame _ _ _ _ _).2.2, insertBuildDoc_builds_len _ _ _ _ _⟩

/-! ### Lemmas on the version split -/

theorem splitDots_ne_nil : ∀ l : List Char, splitDots l ≠ [] := by
  intro l
  cases l with
  | nil => simp [splitDots]
  | cons c cs =>
    rw [splitDots]
    cases h : splitDots cs with
    | nil => simp
    | cons hd tl =>
      by_cases hc : c = '.' <;> simp [hc]

theorem splitDots_singleton : ∀ (l : List Char) (w : List Char),
    splitDots l = [w] → w = l := by
  intro l
  induction l with
  | nil =>
    intro w h
    simp [splitDots] at h
    exact h
  | cons c cs ih =>
    intro w h
    rw [splitDots] at h
    cases hcs : splitDots cs with
    | nil => exact absurd hcs (splitDots_ne_nil cs)
    | cons hd tl =>
      rw [hcs] at h
      by_cases hc : c = '.'
      · simp [hc] at h
      · simp only [hc, if_false] at h
        obtain ⟨hw, htl⟩ := List.cons.injEq (c :: hd) tl w [] ▸ h
        subst htl
        rw [← hw, ih hd hcs]

/-! ### Lemmas on the staging cleaner -/

theorem isDirectChild_iff (folder p : Path) :
    isDirectChild folder p = true ↔ ∃ n, p = folder ++ [n] := by
  unfold isDirectChild
  simp only [Bool.and_eq_true, beq_iff_eq, List.isPrefixOf_iff_prefix]
  constructor
  · rintro ⟨hlen, t, rfl⟩
    rw [List.length_append] at hlen
    have ht : t.length = 1 := by omega
    obtain ⟨n, rfl⟩ := List.length_eq_one.mp ht
    exact ⟨n, rfl⟩
  · rintro ⟨n, rfl⟩
    simp

theorem isDirectChild_eq_false (folder p : Path) :
    isDirectChild folder p = false ↔ ∀ n, ¬ p = folder ++ [n] := by
  constructor
  · intro hf n hc
    have := (isDirectChild_iff folder p).mpr ⟨n, hc⟩
    rw [hf] at this
    cases this
  · intro hall
    cases hh : isDirectChild folder p
    · rfl
    · obtain ⟨n, hn⟩ := (isDirectChild_iff folder p).mp hh
      exact absurd hn (hall n)

theorem isPrefixOf_false (l1 l2 : Path) :
    List.isPrefixOf l1 l2 = false ↔ ¬ l1 <+: l2 := by
  constructor
  · intro hf hc
    rw [(List.isPrefixOf_iff_prefix).mpr hc] at hf
    cases hf
  · intro hn
    cases hh : List.isPrefixOf l1 l2
    · rfl
    · exact absurd (List.isPrefixOf_iff_prefix.mp hh) hn

/-! ### The claims -/

/-- Claim C1, counterexample. With the download file missing from the
staging directory up/sub, relocation fails (copyError, no insertBuild,
store untouched), and yet handleMetadata still runs the cleaner: the
cleanup event fires and the staging directory is deleted. This refutes
the claim that cleanup runs only after a successful build insert and is
skipped when an earlier stage failed. -/
theorem c1_counterexample :
    (insert exCfg exMeta ["up", "sub"] exStMissing).events =
      [Event.mkdir, Event.copyError] ∧
    (insert exCfg exMeta ["up", "sub"] exStMissing).db = exStMissing.db ∧
    (handleMetadata exCfg exMeta ["up", "sub"] exStMissing).events =
      [Event.mkdir, Event.copyError, Event.cleanup] ∧
    isDir (handleMetadata exCfg exMeta ["up", "sub"] exStMissing).fs ["up", "sub"] =
      false := by
  refine ⟨?_, ?_, ?_, ?_⟩ <;> decide

/-- Claim C1, amended: the staging cleaner runs on every ingestion that
reaches handleMetadata, that is, whenever the descriptor parsed;
failures of relocation, hierarchy resolution or the build insert are
caught inside insert, so cleanup is never skipped because of them. -/
theorem c1_cleaner_always_runs (cfg : Config) (m : Metadata) (folder : Path) (s : St) :
    handleMetadata cfg m folder s = clean cfg folder (insert cfg m folder s) ∧
    (handleMetadata cfg m folder s).events =
      (insert cfg m folder s).events ++ [Event.cleanup] :=
  ⟨rfl, clean_events cfg folder (insert cfg m folder s)⟩

/-- Claim C2, counterexample. On a fully successful concrete run the
trace is mkdir, copied, connect, upsertProject, upsertVersionGroup,
upsertVersion, insertBuild: the artifact copy (index 1) happens strictly
before the first hierarchy upsert (index 3), refuting the claimed order
reader, resolver, relocator, recorder and in particular the sentence
that no artifact file is copied before the hierarchy documents have
been resolved. -/
theorem c2_counterexample :
    (insert exCfg exMeta ["up", "sub"] exStPresent).events =
      [Event.mkdir, Event.copied "paper-50.jar", Event.connect, Event.upsertProject,
       Event.upsertVersionGroup, Event.upsertVersion, Event.insertBuild] ∧
    (insert exCfg exMeta ["up", "sub"] exStPresent).events[1]? =
      some (Event.copied "paper-50.jar") ∧
    (insert exCfg exMeta ["up", "sub"] exStPresent).events[3]? =
      some Event.upsertProject := by
  refine ⟨?_, ?_, ?_⟩ <;> decide

/-- Claim C2, amended: within a single ingestion the stages execute
strictly in the order reader, then artifact relocator (directory
creation and file copies), then hierarchy resolver (Project,
VersionGroup, Version upserts), then build recorder, then staging
cleaner: every event before the store events is a mkdir or a copy, and
the store events end with the build insert, followed by cleanup. -/
theorem c2_stage_order (cfg : Config) (m : Metadata) (folder : Path) (s : St)
    (hsrc : ∀ kv ∈ m.downloads, isFile s.fs (folder ++ [kv.2.name]) = true)
    (hdb : s.dbOk = true) :
    ∃ pre, (handleMetadata cfg m folder s).events =
        s.events ++ pre ++ [Event.connect, Event.upsertProject, Event.upsertVersionGroup,
          Event.upsertVersion, Event.insertBuild, Event.cleanup] ∧
      ∀ e ∈ pre, e = Event.mkdir ∨ ∃ n, e = Event.copied n := by
  have hins := insert_eq_dbPhase_foldl cfg m folder s hsrc
  have hTdbOk :
      (List.foldl (copyStep folder (dlPath cfg m)) (mkPhase cfg m s) m.downloads).dbOk
        = true := by
    rw [foldl_copy_dbOk, mkPhase_dbOk]; exact hdb
  refine ⟨(if existsPath s.fs (dlPath cfg m) then [] else [Event.mkdir]) ++
    m.downloads.map (fun x => Event.copied x.2.name), ?_, ?_⟩
  · unfold handleMetadata
    rw [hins, clean_events, dbPhase_events_ok _ _ hTdbOk, foldl_copy_events,
      mkPhase_events]
    simp [List.append_assoc]
  · intro e he
    rcases List.mem_append.mp he with h | h
    · left
      by_cases hex : existsPath s.fs (dlPath cfg m) = true
      · rw [if_pos hex] at h; cases h
      · rw [if_neg hex] at h
        rcases List.mem_cons.mp h with rfl | h
        · rfl
        · cases h
    · right
      obtain ⟨x, _, rfl⟩ := List.mem_map.mp h
      exact ⟨x.2.name, rfl⟩

/-- Claim C2 witness: the amended ordering at the concrete successful
run. -/
theorem c2_stage_order_witness :
    ∃ pre, (handleMetadata exCfg exMeta ["up", "sub"] exStPresent).events =
        exStPresent.events ++ pre ++ [Event.connect, Event.upsertProject,
          Event.upsertVersionGroup, Event.upsertVersion, Event.insertBuild,
          Event.cleanup] ∧
      ∀ e ∈ pre, e = Event.mkdir ∨ ∃ n, e = Event.copied n :=
  c2_stage_order exCfg exMeta ["up", "sub"] exStPresent (by decide) (by decide)

/-- Claim C3: the loop of lines 69-86 never reaches a second read
attempt. The handler result is independent of every attempt after the
first, and a read error on the first attempt is surfaced as a logged
error that ends the ingestion, not retried. This contradicts the
claimed retry-until-success behavior for transient read errors and the
code comment saying it keeps trying to read the file, and backs the
code_bug verdict on the claim. -/
theorem c3_no_second_attempt (cfg : Config) (parse : String → Option Metadata)
    (folder : Path) (s : St) (r : FileRead) (rest rest2 : List FileRead) :
    onMetadataAdd cfg parse (r :: rest) folder s =
      onMetadataAdd cfg parse (r :: rest2) folder s ∧
    onMetadataAdd cfg parse (FileRead.readErr :: rest) folder s =
      emit Event.readError s :=
  ⟨rfl, rfl⟩

/-- Claim C6: an empty descriptor file makes the ingestion abort with a
logged error and no database write at all; the filesystem is untouched
as well. -/
theorem c6_empty_descriptor (cfg : Config) (parse : String → Option Metadata)
    (folder : Path) (s : St) (rest : List FileRead) :
    onMetadataAdd cfg parse (FileRead.ok "" :: rest) folder s =
      emit Event.emptyError s ∧
    (onMetadataAdd cfg parse (FileRead.ok "" :: rest) folder s).db = s.db ∧
    (onMetadataAdd cfg parse (FileRead.ok "" :: rest) folder s).fs = s.fs ∧
    (onMetadataAdd cfg parse (FileRead.ok "" :: rest) folder s).events =
      s.events ++ [Event.emptyError] := by
  have h : onMetadataAdd cfg parse (FileRead.ok "" :: rest) folder s =
      emit Event.emptyError s := by
    simp [onMetadataAdd, attemptResult]
  exact ⟨h, by rw [h]; rfl, by rw [h]; rfl, by rw [h]; rfl⟩

/-- Claim C4: re-ingesting a descriptor identical to a previously
ingested one leaves the projects, version_groups and versions
collections exactly as the first ingestion left them (the find-or-create
upserts find the documents created by the first run and return them
unchanged, creating no duplicates), while the builds collection
unconditionally grows by one more document. -/
theorem c4_reingest_dedup (cfg : Config) (m : Metadata) (folder : Path) (s : St)
    (hsrc : ∀ kv ∈ m.downloads, isFile s.fs (folder ++ [kv.2.name]) = true)
    (hdb : s.dbOk = true) :
    (insert cfg m folder (insert cfg m folder s)).db.projects =
      (insert cfg m folder s).db.projects ∧
    (insert cfg m folder (insert cfg m folder s)).db.version_groups =
      (insert cfg m folder s).db.version_groups ∧
    (insert cfg m folder (insert cfg m folder s)).db.versions =
      (insert cfg m folder s).db.versions ∧
    (insert cfg m folder (insert cfg m folder s)).db.builds.length =
      (insert cfg m folder s).db.builds.length + 1 := by
  have hTdbOk :
      (List.foldl (copyStep folder (dlPath cfg m)) (mkPhase cfg m s) m.downloads).dbOk
        = true := by
    rw [foldl_copy_dbOk, mkPhase_dbOk]; exact hdb
  have hs1 : (insert cfg m folder s).db = dbStep m s.now s.db := by
    rw [insert_eq_dbPhase_foldl cfg m folder s hsrc, dbPhase_db_ok _ _ hTdbOk,
      foldl_copy_now, mkPhase_now, foldl_copy_db, mkPhase_db]
  have hsrc2 : ∀ kv ∈ m.downloads,
      isFile (insert cfg m folder s).fs (folder ++ [kv.2.name]) = true :=
    fun kv hkv => insert_isFile_mono cfg m folder s (hsrc kv hkv)
  have hdb2 : (insert cfg m folder s).dbOk = true := by
    rw [insert_dbOk]; exact hdb
  have hTdbOk2 :
      (List.foldl (copyStep folder (dlPath cfg m))
        (mkPhase cfg m (insert cfg m folder s)) m.downloads).dbOk = true := by
    rw [foldl_copy_dbOk, mkPhase_dbOk]; exact hdb2
  have hs2 : (insert cfg m folder (insert cfg m folder s)).db =
      dbStep m (insert cfg m folder s).now (insert cfg m folder s).db := by
    rw [insert_eq_dbPhase_foldl cfg m folder _ hsrc2, dbPhase_db_ok _ _ hTdbOk2,
      foldl_copy_now, mkPhase_now, foldl_copy_db, mkPhase_db]
  rw [hs2, hs1]
  exact dbStep_stable m s.now (insert cfg m folder s).now s.db

/-- Claim C4 witness: the double ingestion at the concrete input. -/
theorem c4_reingest_dedup_witness :
    (insert exCfg exMeta ["up", "sub"] (insert exCfg exMeta ["up", "sub"] exStPresent)).db.projects =
      (insert exCfg exMeta ["up", "sub"] exStPresent).db.projects ∧
    (insert exCfg exMeta ["up", "sub"] (insert exCfg exMeta ["up", "sub"] exStPresent)).db.version_groups =
      (insert exCfg exMeta ["up", "sub"] exStPresent).db.version_groups ∧
    (insert exCfg exMeta ["up", "sub"] (insert exCfg exMeta ["up", "sub"] exStPresent)).db.versions =
      (insert exCfg exMeta ["up", "sub"] exStPresent).db.versions ∧
    (insert exCfg exMeta ["up", "sub"] (insert exCfg exMeta ["up", "sub"] exStPresent)).db.builds.length =
      (insert exCfg exMeta ["up", "sub"] exStPresent).db.builds.length + 1 :=
  c4_reingest_dedup exCfg exMeta ["up", "sub"] exStPresent (by decide) (by decide)

/-- Claim C5: when the downloads map is pre, then a missing entry kv,
then post, the copy loop copies exactly the pre entries, aborts at kv
(the first failing copy), logs the copy error, and the store is never
touched: insert returns the state after the pre copies with a copyError
event and an unchanged db, the files copied before the failure staying
in place in permanent storage. -/
theorem c5_copy_abort (cfg : Config) (m : Metadata) (folder : Path) (s : St)
    (pre : List (String × Download)) (kv : String × Download)
    (post : List (String × Download))
    (hdl : m.downloads = pre ++ kv :: post)
    (hpre : ∀ x ∈ pre, isFile s.fs (folder ++ [x.2.name]) = true)
    (hkv : isFile s.fs (folder ++ [kv.2.name]) = false)
    (hfd : folder ≠ dlPath cfg m) :
    insert cfg m folder s =
      emit .copyError
        (List.foldl (copyStep folder (dlPath cfg m)) (mkPhase cfg m s) pre) ∧
    (insert cfg m folder s).db = s.db ∧
    (∀ x ∈ pre, isFile (insert cfg m folder s).fs (dlPath cfg m ++ [x.2.name]) = true) ∧
    (insert cfg m folder s).events =
      (mkPhase cfg m s).events ++ pre.map (fun x => Event.copied x.2.name) ++
        [Event.copyError] := by
  have hloop := copyLoop_pre_fail folder (dlPath cfg m) hfd kv post pre (mkPhase cfg m s)
    (fun x hx => by rw [mkPhase_isFile]; exact hpre x hx)
    (by rw [mkPhase_isFile]; exact hkv)
  have hmain : insert cfg m folder s =
      emit .copyError
        (List.foldl (copyStep folder (dlPath cfg m)) (mkPhase cfg m s) pre) := by
    rw [insert_eq_if, hdl, hloop]
    simp
  refine ⟨hmain, ?_, ?_, ?_⟩
  · rw [hmain, emit_db, foldl_copy_db, mkPhase_db]
  · intro x hx
    rw [hmain, emit_fs]
    exact foldl_copy_dest folder (dlPath cfg m) pre (mkPhase cfg m s) x hx
  · rw [hmain, emit_events, foldl_copy_events]

/-- Claim C5 witness: with only the first of three downloads present,
the ingestion aborts with an unchanged store, and the trace records
exactly the one successful copy before the copy error. -/
theorem c5_copy_abort_witness :
    (insert exCfg exMetaThree ["up", "sub"] exStFirstOnly).db = exStFirstOnly.db ∧
    (insert exCfg exMetaThree ["up", "sub"] exStFirstOnly).events =
      (mkPhase exCfg exMetaThree exStFirstOnly).events ++
        [Event.copied "a.jar"] ++ [Event.copyError] := by
  have h := c5_copy_abort exCfg exMetaThree ["up", "sub"] exStFirstOnly
    [("a", { name := "a.jar", sha256 := "s1" })]
    ("b", { name := "b.jar", sha256 := "s2" })
    [("c", { name := "c.jar", sha256 := "s3" })]
    (by decide) (by decide) (by decide) (by decide)
  exact ⟨h.2.1, h.2.2.2⟩

/-- Claim C9: when any download copy fails, insert returns before the
store connection is opened: the whole document store is left exactly as
it was (no Project, VersionGroup, Version or Build document is created
or modified), and the events of the run include no connect and no
insertBuild. -/
theorem c9_copy_fail_frame (cfg : Config) (m : Metadata) (folder : Path) (s : St)
    (h : (copyLoop folder (dlPath cfg m) m.downloads (mkPhase cfg m s)).1 = false) :
    (insert cfg m folder s).db = s.db ∧
    ∃ E, (insert cfg m folder s).events = s.events ++ E ∧
      Event.connect ∉ E ∧ Event.insertBuild ∉ E := by
  have hins := insert_of_copyFail cfg m folder s h
  obtain ⟨hdbL, _, _, E, hE, hEmem⟩ :=
    copyLoop_fail_shape folder (dlPath cfg m) m.downloads (mkPhase cfg m s) h
  have hnotin : ∀ e, e ∈ (if existsPath s.fs (dlPath cfg m) then ([] : List Event)
      else [Event.mkdir]) ++ E →
      e = Event.mkdir ∨ (∃ n, e = Event.copied n) ∨ e = Event.copyError := by
    intro e he
    rcases List.mem_append.mp he with h1 | h1
    · by_cases hex : existsPath s.fs (dlPath cfg m) = true
      · rw [if_pos hex] at h1; cases h1
      · rw [if_neg hex] at h1
        rcases List.mem_cons.mp h1 with rfl | h1
        · exact Or.inl rfl
        · cases h1
    · exact Or.inr (hEmem e h1)
  refine ⟨by rw [hins, hdbL, mkPhase_db], ?_⟩
  refine ⟨(if existsPath s.fs (dlPath cfg m) then [] else [Event.mkdir]) ++ E, ?_, ?_, ?_⟩
  · rw [hins, hE, mkPhase_events]
    simp [List.append_assoc]
  · intro hc
    rcases hnotin Event.connect hc with h1 | ⟨n, h1⟩ | h1 <;> simp at h1
  · intro hc
    rcases hnotin Event.insertBuild hc with h1 | ⟨n, h1⟩ | h1 <;> simp at h1

/-- Claim C9 witness: at the concrete failing run the store is exactly
the initial one. -/
theorem c9_copy_fail_frame_witness :
    (insert exCfg exMeta ["up", "sub"] exStMissing).db = exStMissing.db :=
  (c9_copy_fail_frame exCfg exMeta ["up", "sub"] exStMissing (by decide)).1

/-- Claim C7: the version group key is the first two dot-separated
components of the version string joined by a dot; when the version
string has fewer than two dot-separated components, the key is the
whole version string. -/
theorem c7_major_version (v : String) :
    (∀ a b t, splitDots v.toList = a :: b :: t →
      majorVersion v = (a ++ '.' :: b).asString) ∧
    ((splitDots v.toList).length < 2 → majorVersion v = v) := by
  constructor
  · intro a b t h
    unfold majorVersion
    rw [h]
    simp [List.intercalate, List.intersperse]
  · intro h
    have hne := splitDots_ne_nil v.toList
    have h1 : (splitDots v.toList).length = 1 := by
      cases hl : (splitDots v.toList).length with
      | zero => exact absurd (List.length_eq_zero.mp hl) hne
      | succ n => rw [hl] at h; omega
    obtain ⟨w, hw⟩ := List.length_eq_one.mp h1
    have hwv : w = v.toList := splitDots_singleton v.toList w hw
    unfold majorVersion
    rw [hw, hwv]
    simp only [List.take_succ_cons, List.take_nil, List.intercalate, List.intersperse,
      List.flatten_cons, List.flatten_nil, List.append_nil]
    exact String.asString_toList v

/-- Claim C7 witness: the two branches at concrete version strings. -/
theorem c7_major_version_witness :
    majorVersion "1.19.4" = "1.19" ∧ majorVersion "2" = "2" := by
  refine ⟨?_, (c7_major_version "2").2 (by decide)⟩
  have h := (c7_major_version "1.19.4").1 ['1'] ['1', '9'] [['4']] (by decide)
  rw [h]
  decide

/-- Claim C8: when the staging folder is exactly the watched upload
root, the cleaner deletes exactly the regular files directly inside it,
keeping every directory (the root itself included) and every deeper
file; otherwise it deletes the staging folder recursively: exactly the
files and directories at or below it disappear. -/
theorem c8_cleaner (cfg : Config) (folder : Path) (s : St) :
    (folder = cfg.uploadFolder →
      (clean cfg folder s).fs.dirs = s.fs.dirs ∧
      ∀ e, e ∈ (clean cfg folder s).fs.files ↔
        e ∈ s.fs.files ∧ ¬ ∃ n, e.1 = folder ++ [n]) ∧
    (folder ≠ cfg.uploadFolder →
      (∀ e, e ∈ (clean cfg folder s).fs.files ↔ e ∈ s.fs.files ∧ ¬ folder <+: e.1) ∧
      (∀ d, d ∈ (clean cfg folder s).fs.dirs ↔ d ∈ s.fs.dirs ∧ ¬ folder <+: d)) := by
  constructor
  · intro h
    unfold clean
    rw [if_pos h]
    refine ⟨rfl, ?_⟩
    intro e
    simp only [removeDirectFiles, emit, List.mem_filter, Bool.not_eq_true',
      isDirectChild_eq_false, not_exists]
  · intro h
    unfold clean
    rw [if_neg h]
    exact ⟨fun e => by
        simp only [rmRec, emit, List.mem_filter, Bool.not_eq_true', isPrefixOf_false],
      fun d => by
        simp only [rmRec, emit, List.mem_filter, Bool.not_eq_true', isPrefixOf_false]⟩

/-- Claim C8 witness: both branches on a concrete filesystem holding a
file directly in the watch root and a file in a subdirectory. -/
theorem c8_cleaner_witness :
    (clean exCfg ["up"] exStMixed).fs.files = [(["up", "sub", "y.jar"], 2)] ∧
    (clean exCfg ["up"] exStMixed).fs.dirs = exStMixed.fs.dirs ∧
    (clean exCfg ["up", "sub"] exStMixed).fs.files = [(["up", "x.jar"], 1)] ∧
    (clean exCfg ["up", "sub"] exStMixed).fs.dirs = [["up"]] := by
  refine ⟨?_, ?_, ?_, ?_⟩ <;> decide

/-- Claim C10: insert creates the destination directory
storage-root/project/version/build-number before attempting any copy,
with parents, and the directory persists to the end of insert whatever
happens afterwards, the downloads map being empty or the relocation
failing included. With nothing at the destination path, every nonempty
prefix of it is a directory afterwards and the run trace starts with
the mkdir event. -/
theorem c10_dest_dir (cfg : Config) (m : Metadata) (folder : Path) (s : St)
    (h : isFile s.fs (dlPath cfg m) = false) :
    isDir (insert cfg m folder s).fs (dlPath cfg m) = true ∧
    (existsPath s.fs (dlPath cfg m) = false →
      (∀ q, q ≠ [] → q <+: dlPath cfg m → isDir (insert cfg m folder s).fs q = true) ∧
      ∃ E, (insert cfg m folder s).events = s.events ++ Event.mkdir :: E) := by
  have hdirs : ∀ q, isDir (insert cfg m folder s).fs q = isDir (mkPhase cfg m s).fs q :=
    fun q => isDir_of_dirs_eq (insert_dirs cfg m folder s) q
  have hdnn : dlPath cfg m ≠ [] := by
    intro hc
    have := congrArg List.length hc
    simp [dlPath] at this
  constructor
  · rw [hdirs]
    unfold mkPhase
    by_cases hex : existsPath s.fs (dlPath cfg m) = true
    · rw [if_pos hex]
      simpa [existsPath, h] using hex
    · rw [if_neg hex]
      exact isDir_mkdirRec_of_prefix s.fs hdnn (List.prefix_refl _)
  · intro hex
    constructor
    · intro q hq hqp
      rw [hdirs]
      unfold mkPhase
      rw [if_neg (by rw [hex]; exact Bool.false_ne_true)]
      exact isDir_mkdirRec_of_prefix s.fs hq hqp
    · obtain ⟨E, hE⟩ := insert_events_from_mkPhase cfg m folder s
      refine ⟨E, ?_⟩
      rw [hE, mkPhase_events, hex]
      simp

/-- Claim C10 witness: with an empty downloads map and nothing at the
destination path, the destination directory exists after insert. -/
theorem c10_dest_dir_witness :
    isDir (insert exCfg exMetaNone ["up", "sub"] exStMissing).fs
      (dlPath exCfg exMetaNone) = true :=
  (c10_dest_dir exCfg exMetaNone ["up", "sub"] exStMissing (by decide)).1

end Bibliothek
